import Mathlib

/-! Shallow embedding of the blog application's core (src/main.py, src/models.py):
slug derivation, the Post data model, and the request handlers, together with
theorems checking the specification's properties. Strings are modelled as lists
of characters, timestamps as abstract natural-number ticks, and the posts table
as a list of rows. Character classes of the Python regexes are taken over the
ASCII range, matching the basic-latin scope of Char.toLower and Char.isAlphanum. -/

namespace BlogSite

/-- Whitespace characters, the regex class used by re.sub in slugify. -/
def isSpaceChar (c : Char) : Bool :=
  c == ' ' || c == '\t' || c == '\n' || c == '\r' || c == '\x0b' || c == '\x0c'

/-- Word characters (alphanumeric or underscore), the regex word class over ASCII. -/
def isWordChar (c : Char) : Bool :=
  c.isAlphanum || c == '_'

/-- Characters kept by the first substitution of slugify, which deletes every
character that is neither a word character, whitespace, nor a hyphen. -/
def keepChar (c : Char) : Bool :=
  isWordChar c || isSpaceChar c || c == '-'

/-- One pass of the second substitution of slugify: each maximal run of
whitespace becomes a single hyphen. The boolean records whether the previous
character was whitespace. -/
def collapseAux : Bool → List Char → List Char
  | _, [] => []
  | prev, c :: cs =>
    if isSpaceChar c then
      if prev then collapseAux true cs else '-' :: collapseAux true cs
    else c :: collapseAux false cs

/-- Replace each whitespace run by a single hyphen. -/
def collapseSpaces (l : List Char) : List Char :=
  collapseAux false l

/-- Remove hyphens from both ends, as the Python strip call with a hyphen does. -/
def stripHyphens (l : List Char) : List Char :=
  List.rdropWhile (fun c => c == '-') (List.dropWhile (fun c => c == '-') l)

/-- The slugify function of src/main.py: lower-case, delete characters outside
the kept class, collapse whitespace runs to hyphens, trim edge hyphens. -/
def slugify (text : List Char) : List Char :=
  stripHyphens (collapseSpaces (List.filter keepChar (List.map Char.toLower text)))

/-- A row of the posts table (src/models.py). -/
structure Post where
  id : Nat
  title : List Char
  slug : List Char
  content : List Char
  author : List Char
  is_published : Bool
  created_at : Nat
  published_at : Option Nat
  updated_at : Option Nat
deriving DecidableEq

/-- Form fields of the create endpoint. -/
structure CreateForm where
  title : List Char
  content : List Char
  author : List Char
  slug : Option (List Char)
  is_published : Bool
  action : List Char
deriving DecidableEq

/-- Form fields of the edit endpoint. -/
structure EditForm where
  title : List Char
  content : List Char
  author : List Char
  slug : Option (List Char)
deriving DecidableEq

/-- Truthiness of an optional string form value: absent and empty are false. -/
def strTruthy : Option (List Char) → Bool
  | none => false
  | some s => !s.isEmpty

/-- Redirects issued by the mutating handlers. -/
inductive Redirect where
  | postPage : List Char → Redirect
  | draftsList : Redirect
  | draftPage : Nat → Redirect
  | homePage : Redirect
deriving DecidableEq

/-- The action form value that makes create publish immediately. -/
def publishAction : List Char := "publish".toList

/-- The slug chosen by create_post: the slugified override when the override is
truthy, otherwise the slugified title. -/
def finalSlug (f : CreateForm) : List Char :=
  if strTruthy f.slug then slugify (f.slug.getD []) else slugify f.title

/-- The create_post handler. It returns the response and the resulting table;
now stands for the clock reading and nid for the id the database assigns.
Mirroring the source, published_at is set to the current time unconditionally. -/
def create_post (f : CreateForm) (now nid : Nat) (db : List Post) :
    Except Nat Redirect × List Post :=
  let final_slug := finalSlug f
  let publish := f.action == publishAction
  match db.find? (fun p => p.slug == final_slug) with
  | some _ => (Except.error 400, db)
  | none =>
    let new_post : Post :=
      { id := nid, title := f.title, slug := final_slug, content := f.content,
        author := f.author, is_published := publish, created_at := now,
        published_at := some now, updated_at := none }
    if publish then (Except.ok (Redirect.postPage new_post.slug), db ++ [new_post])
    else (Except.ok Redirect.draftsList, db ++ [new_post])

/-- Update the first row matching the predicate: the session mutates the row
returned by the first call of the query and commits the change. -/
def updateFirst (q : Post → Bool) (f : Post → Post) : List Post → List Post
  | [] => []
  | p :: ps => if q p then f p :: ps else p :: updateFirst q f ps

/-- The field updates edit_post performs on the loaded row: title, content and
author always; for a published post also the slug (override taken verbatim,
otherwise re-derived from the title) and the updated_at stamp. -/
def editUpdate (g : EditForm) (now : Nat) (p : Post) : Post :=
  let p1 : Post := { p with title := g.title, content := g.content, author := g.author }
  if p1.is_published then
    { p1 with
      slug := if strTruthy g.slug then g.slug.getD [] else slugify g.title,
      updated_at := some now }
  else p1

/-- The edit_post handler. -/
def edit_post (pid : Nat) (g : EditForm) (now : Nat) (db : List Post) :
    Except Nat Redirect × List Post :=
  match db.find? (fun p => p.id == pid) with
  | none => (Except.error 404, db)
  | some p =>
    let p2 := editUpdate g now p
    let db2 := updateFirst (fun q => q.id == pid) (editUpdate g now) db
    if p2.is_published then (Except.ok (Redirect.postPage p2.slug), db2)
    else (Except.ok (Redirect.draftPage pid), db2)

/-- The mutation block of publish_draft, applied only to an unpublished row. -/
def stampPublish (now : Nat) (p : Post) : Post :=
  { p with is_published := true, published_at := some now, updated_at := some now }

/-- The publish_draft handler. -/
def publish_draft (pid now : Nat) (db : List Post) : Except Nat Redirect × List Post :=
  match db.find? (fun p => p.id == pid) with
  | none => (Except.error 404, db)
  | some p =>
    if p.is_published then (Except.ok (Redirect.postPage p.slug), db)
    else
      (Except.ok (Redirect.postPage p.slug),
        updateFirst (fun q => q.id == pid) (stampPublish now) db)

/-- The view_post handler: fetch by slug, published posts only. -/
def view_post (slug : List Char) (db : List Post) : Except Nat Post :=
  match db.find? (fun p => p.slug == slug && p.is_published) with
  | none => Except.error 404
  | some p => Except.ok p

/-- The preview_draft handler: fetch by id, unpublished posts only. -/
def preview_draft (pid : Nat) (db : List Post) : Except Nat Post :=
  match db.find? (fun p => p.id == pid && !p.is_published) with
  | none => Except.error 404
  | some p => Except.ok p

/-- The fixed page size of the home listing. -/
def POSTS_PER_PAGE : Nat := 4

/-- Leading-match test used by the substring search. -/
def startsWith : List Char → List Char → Bool
  | [], _ => true
  | _ :: _, [] => false
  | a :: as, b :: bs => a == b && startsWith as bs

/-- Contiguous substring test, modelling the sql like match with wildcards on
both sides. -/
def hasSub (needle : List Char) : List Char → Bool
  | [] => needle.isEmpty
  | b :: bs => startsWith needle (b :: bs) || hasSub needle bs

/-- The disjunctive case-insensitive search filter of home over title, content
and author. -/
def matchesSearch (s : List Char) (p : Post) : Bool :=
  hasSub (s.map Char.toLower) (p.title.map Char.toLower) ||
  hasSub (s.map Char.toLower) (p.content.map Char.toLower) ||
  hasSub (s.map Char.toLower) (p.author.map Char.toLower)

/-- The order key of home: publish time descending, rows without one last. -/
def publishedBefore (p q : Post) : Bool :=
  match p.published_at, q.published_at with
  | some a, some b => decide (b ≤ a)
  | some _, none => true
  | none, some _ => false
  | none, none => true

/-- Insert a row into a sorted list. -/
def insertPost (le : Post → Post → Bool) (p : Post) : List Post → List Post
  | [] => [p]
  | q :: qs => if le p q then p :: q :: qs else q :: insertPost le p qs

/-- Sort the rows, modelling the order-by clause of the listing query. -/
def sortPosts (le : Post → Post → Bool) : List Post → List Post
  | [] => []
  | p :: ps => insertPost le p (sortPosts le ps)

/-- The filtered query of the home handler: published posts, optionally narrowed
by the search term. -/
def homeQuery (search : Option (List Char)) (db : List Post) : List Post :=
  let q := db.filter (fun p => p.is_published)
  if strTruthy search then q.filter (matchesSearch (search.getD [])) else q

/-- Ceiling division on naturals, the value math.ceil gives on the exact
quotient of the count by the page size. -/
def ceilDiv (a b : Nat) : Nat := (a + b - 1) / b

/-- The context the home handler passes to its template. -/
structure HomePage where
  posts : List Post
  page : Nat
  total_pages : Nat
deriving DecidableEq

/-- The home handler: filter, count, compute the page total, order, and slice
with offset and limit. -/
def home (page : Nat) (search : Option (List Char)) (db : List Post) : HomePage :=
  let query := homeQuery search db
  let total_posts := query.length
  let total_pages := max (ceilDiv total_posts POSTS_PER_PAGE) 1
  let posts :=
    ((sortPosts publishedBefore query).drop ((page - 1) * POSTS_PER_PAGE)).take POSTS_PER_PAGE
  { posts := posts, page := page, total_pages := total_pages }

/-- The row create_post inserts on success, as a named value. -/
def newPost (f : CreateForm) (now nid : Nat) : Post :=
  { id := nid, title := f.title, slug := finalSlug f, content := f.content,
    author := f.author, is_published := (f.action == publishAction), created_at := now,
    published_at := some now, updated_at := none }

/-- Concrete posts and forms used by witnesses and counterexamples. -/
def helloForm : CreateForm :=
  { title := "Hello World!".toList, content := "Some content.".toList,
    author := "A".toList, slug := none, is_published := false, action := "draft".toList }

def draftPostW : Post :=
  { id := 1, title := "t".toList, slug := "t".toList, content := "c".toList,
    author := "a".toList, is_published := false, created_at := 0,
    published_at := none, updated_at := none }

def pubPostW : Post :=
  { id := 2, title := "Hello World!".toList, slug := "hello-world".toList,
    content := "c".toList, author := "a".toList, is_published := true,
    created_at := 0, published_at := some 1, updated_at := none }

def editOverrideForm : EditForm :=
  { title := "New Title".toList, content := "c2".toList, author := "B".toList,
    slug := some ("My Slug!".toList) }

def editDeriveForm : EditForm :=
  { title := "Another Title".toList, content := "c3".toList, author := "B".toList,
    slug := none }

/-! Helper lemmas about characters and slugify. -/

theorem toNat_ofNat_valid (n : Nat) (h : n.isValidChar) : (Char.ofNat n).toNat = n := by
  rw [Char.ofNat, dif_pos h]
  rfl

theorem toLower_toLower (c : Char) : c.toLower.toLower = c.toLower := by
  by_cases h : c.toNat ≥ 65 ∧ c.toNat ≤ 90
  · have hv : Nat.isValidChar (c.toNat + 32) := Or.inl (by omega)
    simp only [Char.toLower, if_pos h, toNat_ofNat_valid _ hv]
    rw [if_neg (by omega)]
  · simp only [Char.toLower, if_neg h]

theorem mem_collapseAux (c : Char) (b : Bool) (l : List Char) (h : c ∈ collapseAux b l) :
    c = '-' ∨ (c ∈ l ∧ isSpaceChar c = false) := by
  induction l generalizing b with
  | nil => simp [collapseAux] at h
  | cons a l ih =>
    by_cases ha : isSpaceChar a
    · rw [show collapseAux b (a :: l) =
          (if isSpaceChar a then
            if b then collapseAux true l else '-' :: collapseAux true l
          else a :: collapseAux false l) from rfl, if_pos ha] at h
      cases b with
      | true =>
        rcases ih true h with h1 | ⟨h2, h3⟩
        · exact Or.inl h1
        · exact Or.inr ⟨List.mem_cons_of_mem a h2, h3⟩
      | false =>
        rcases List.mem_cons.mp h with h1 | h1
        · exact Or.inl h1
        · rcases ih true h1 with h2 | ⟨h3, h4⟩
          · exact Or.inl h2
          · exact Or.inr ⟨List.mem_cons_of_mem a h3, h4⟩
    · rw [show collapseAux b (a :: l) =
          (if isSpaceChar a then
            if b then collapseAux true l else '-' :: collapseAux true l
          else a :: collapseAux false l) from rfl, if_neg ha] at h
      rcases List.mem_cons.mp h with h1 | h1
      · subst h1
        exact Or.inr ⟨List.mem_cons_self c l, by simpa using ha⟩
      · rcases ih false h1 with h2 | ⟨h3, h4⟩
        · exact Or.inl h2
        · exact Or.inr ⟨List.mem_cons_of_mem a h3, h4⟩

theorem collapseAux_eq_self (b : Bool) (l : List Char)
    (h : ∀ c ∈ l, isSpaceChar c = false) : collapseAux b l = l := by
  induction l generalizing b with
  | nil => rfl
  | cons a l ih =>
    have ha : isSpaceChar a = false := h a (List.mem_cons_self a l)
    rw [show collapseAux b (a :: l) =
        (if isSpaceChar a then
          if b then collapseAux true l else '-' :: collapseAux true l
        else a :: collapseAux false l) from rfl, if_neg (by simp [ha])]
    rw [ih false (fun c hc => h c (List.mem_cons_of_mem a hc))]

theorem map_eq_self_of_fix (f : Char → Char) (l : List Char) (h : ∀ c ∈ l, f c = c) :
    List.map f l = l := by
  induction l with
  | nil => rfl
  | cons a l ih =>
    rw [List.map_cons, h a (List.mem_cons_self a l),
      ih (fun c hc => h c (List.mem_cons_of_mem a hc))]

theorem dropWhile_eq_self_of_front (p : Char → Bool) (u w : List Char)
    (hp : u <+: w) (hw : List.dropWhile p w = w) : List.dropWhile p u = u := by
  cases u with
  | nil => rfl
  | cons a u2 =>
    obtain ⟨t, ht⟩ := hp
    subst ht
    have ha : p a = false := by
      by_contra hcon
      have ha2 : p a = true := by simpa using hcon
      rw [List.cons_append, List.dropWhile_cons, if_pos ha2] at hw
      have hlen : (List.dropWhile p (u2 ++ t)).length ≤ (u2 ++ t).length :=
        (List.dropWhile_sublist p).length_le
      rw [hw] at hlen
      simp at hlen
    rw [List.dropWhile_cons, if_neg (by simp [ha])]

theorem stripHyphens_idem (l : List Char) : stripHyphens (stripHyphens l) = stripHyphens l := by
  unfold stripHyphens
  rw [dropWhile_eq_self_of_front _ _ _ (List.rdropWhile_prefix _ _)
    (List.dropWhile_idempotent _ _), List.rdropWhile_idempotent]

theorem mem_slugify_fix (t : List Char) (c : Char) (hc : c ∈ slugify t) :
    Char.toLower c = c ∧ keepChar c = true ∧ isSpaceChar c = false := by
  have hc2 : c ∈ collapseSpaces (List.filter keepChar (List.map Char.toLower t)) := by
    have h1 := (List.rdropWhile_prefix (fun c => c == '-') _).subset hc
    exact (List.dropWhile_sublist _).subset h1
  rcases mem_collapseAux c false _ hc2 with hdash | ⟨hmem, hsp⟩
  · subst hdash
    exact ⟨by decide, by decide, by decide⟩
  · have hkeep : keepChar c = true := List.of_mem_filter hmem
    have hmm : c ∈ List.map Char.toLower t := List.mem_of_mem_filter hmem
    obtain ⟨a, _, rfl⟩ := List.mem_map.mp hmm
    exact ⟨toLower_toLower a, hkeep, hsp⟩

theorem slugify_idem (t : List Char) : slugify (slugify t) = slugify t := by
  have hmap : List.map Char.toLower (slugify t) = slugify t :=
    map_eq_self_of_fix _ _ (fun c hc => (mem_slugify_fix t c hc).1)
  have hfil : List.filter keepChar (slugify t) = slugify t :=
    List.filter_eq_self.mpr (fun c hc => (mem_slugify_fix t c hc).2.1)
  have hcol : collapseSpaces (slugify t) = slugify t :=
    collapseAux_eq_self false _ (fun c hc => (mem_slugify_fix t c hc).2.2)
  conv_lhs => rw [slugify, hmap, hfil, hcol]
  conv_lhs => rw [show slugify t =
    stripHyphens (collapseSpaces (List.filter keepChar (List.map Char.toLower t))) from rfl]
  rw [stripHyphens_idem]
  rfl

/-- C6: slug derivation is deterministic (equal inputs give equal slugs) and
idempotent (slugify applied to its own output returns it unchanged). -/
theorem slugify_deterministic_idem :
    (∀ t u : List Char, t = u → slugify t = slugify u) ∧
    (∀ t : List Char, slugify (slugify t) = slugify t) :=
  ⟨fun _ _ h => h ▸ rfl, slugify_idem⟩

/-- C6 witness: the theorem applied at concrete inputs. -/
theorem slugify_deterministic_idem_witness :
    slugify ("Hello World!".toList) = slugify ("Hello World!".toList) ∧
    slugify (slugify ("  a -- b  ".toList)) = slugify ("  a -- b  ".toList) :=
  ⟨slugify_deterministic_idem.1 _ _ rfl, slugify_deterministic_idem.2 _⟩

/-- C5: slugify is the composition of the four specified steps, the title
Hello World! slugifies to hello-world, and a post created from that title is
stored with slug hello-world. -/
theorem slugify_hello_world :
    (∀ t : List Char, slugify t =
      stripHyphens (collapseSpaces (List.filter keepChar (List.map Char.toLower t)))) ∧
    slugify ("Hello World!".toList) = "hello-world".toList ∧
    (create_post helloForm 3 1 []).2 = [newPost helloForm 3 1] ∧
    (newPost helloForm 3 1).slug = "hello-world".toList :=
  ⟨fun _ => rfl, by decide, by decide, by decide⟩

/-- C1: the code stores a non-null published_at for a freshly created draft:
the post created from a draft form has is_published false, has never been
published, and yet its published_at equals the creation instant, contradicting
the null-iff-never-published invariant. -/
theorem create_draft_stores_published_at :
    (create_post helloForm 5 1 []).2 = [newPost helloForm 5 1] ∧
    (newPost helloForm 5 1).is_published = false ∧
    (newPost helloForm 5 1).published_at = some 5 := by
  decide

/-! Helper lemmas about the table operations. -/

theorem find?_updateFirst (q : Post → Bool) (f : Post → Post) (l : List Post) (p : Post)
    (hfind : l.find? q = some p) (hf : q (f p) = true) :
    (updateFirst q f l).find? q = some (f p) := by
  induction l with
  | nil => simp at hfind
  | cons a l ih =>
    by_cases hq : q a = true
    · have ha : a = p := by
        have h1 : (a :: l).find? q = some a := List.find?_cons_of_pos _ hq
        rw [hfind] at h1
        exact (Option.some.inj h1).symm
      subst ha
      rw [show updateFirst q f (a :: l) = f a :: l from by rw [updateFirst, if_pos hq]]
      exact List.find?_cons_of_pos _ hf
    · have hq2 : q a = false := by simpa using hq
      rw [show updateFirst q f (a :: l) = a :: updateFirst q f l from by
        rw [updateFirst, if_neg (by simp [hq2])]]
      rw [List.find?_cons_of_neg _ (by simp [hq2])]
      rw [List.find?_cons_of_neg _ (by simp [hq2])] at hfind
      exact ih hfind

/-- C3: publishing is idempotent. When the post found by id is already
published, publish_draft leaves the table unchanged; when it is a draft, the
table gets exactly the stamped row (is_published set, published_at and
updated_at set to the publish instant), and a second publish at any later
instant changes nothing. -/
theorem publish_draft_idem (db : List Post) (pid now now2 : Nat) (p : Post)
    (hfind : db.find? (fun q => q.id == pid) = some p) :
    (p.is_published = true → (publish_draft pid now db).2 = db) ∧
    (p.is_published = false →
      (publish_draft pid now db).2 =
        updateFirst (fun q => q.id == pid) (stampPublish now) db ∧
      (publish_draft pid now db).2.find? (fun q => q.id == pid) =
        some (stampPublish now p) ∧
      (stampPublish now p).is_published = true ∧
      (stampPublish now p).published_at = some now ∧
      (stampPublish now p).updated_at = some now ∧
      (publish_draft pid now2 (publish_draft pid now db).2).2 =
        (publish_draft pid now db).2) := by
  constructor
  · intro hp
    simp [publish_draft, hfind, hp]
  · intro hp
    have hq0 := List.find?_some hfind
    have hq : (fun q => q.id == pid) (stampPublish now p) = true := hq0
    have hdb1 : (publish_draft pid now db).2 =
        updateFirst (fun q => q.id == pid) (stampPublish now) db := by
      simp [publish_draft, hfind, hp]
    have hfind1 : (updateFirst (fun q => q.id == pid) (stampPublish now) db).find?
        (fun q => q.id == pid) = some (stampPublish now p) :=
      find?_updateFirst _ _ _ _ hfind hq
    refine ⟨hdb1, by rw [hdb1]; exact hfind1, rfl, rfl, rfl, ?_⟩
    rw [hdb1]
    simp [publish_draft, hfind1, stampPublish]

/-- C3 witness: the theorem applied to a one-row table holding a draft. -/
theorem publish_draft_idem_witness :
    (publish_draft 1 7 [draftPostW]).2 =
      updateFirst (fun q => q.id == 1) (stampPublish 7) [draftPostW] ∧
    (publish_draft 1 9 (publish_draft 1 7 [draftPostW]).2).2 =
      (publish_draft 1 7 [draftPostW]).2 := by
  have h := (publish_draft_idem [draftPostW] 1 7 9 draftPostW (by decide)).2 (by decide)
  exact ⟨h.1, h.2.2.2.2.2⟩

/-- C7: creating a post whose derived slug collides with a stored one fails
with error 400 and leaves the table unchanged. -/
theorem create_post_duplicate_slug (f : CreateForm) (now nid : Nat) (db : List Post)
    (h : ∃ p ∈ db, p.slug = finalSlug f) :
    create_post f now nid db = (Except.error 400, db) := by
  have hsome : (db.find? (fun p => p.slug == finalSlug f)).isSome := by
    rw [List.find?_isSome]
    obtain ⟨p, hp, hs⟩ := h
    exact ⟨p, hp, by simp [hs]⟩
  obtain ⟨p, hp⟩ := Option.isSome_iff_exists.mp hsome
  simp [create_post, hp]

/-- C7 witness: creating over an existing hello-world slug fails with 400. -/
theorem create_post_duplicate_slug_witness :
    create_post helloForm 5 3 [pubPostW] = (Except.error 400, [pubPostW]) :=
  create_post_duplicate_slug helloForm 5 3 [pubPostW] ⟨pubPostW, by decide, by decide⟩

/-- C9: the is_published form field is ignored by create_post: the handler
computes the same result whatever value it holds, and on success the stored
row is published exactly when the action field equals publish. -/
theorem create_post_ignores_is_published (f : CreateForm) (b : Bool) (now nid : Nat)
    (db : List Post) :
    (create_post f now nid db = create_post { f with is_published := b } now nid db) ∧
    ((∀ p ∈ db, p.slug ≠ finalSlug f) →
      (create_post f now nid db).2 = db ++ [newPost f now nid] ∧
      (newPost f now nid).is_published = (f.action == publishAction)) := by
  constructor
  · rfl
  · intro h
    have hnone : db.find? (fun p => p.slug == finalSlug f) = none := by
      rw [List.find?_eq_none]
      intro p hp
      simp [h p hp]
    refine ⟨?_, rfl⟩
    by_cases hb : (f.action == publishAction) = true
    · simp [create_post, hnone, hb, newPost]
    · simp [create_post, hnone, hb, newPost]

/-- C9 witness: the theorem applied to the empty table. -/
theorem create_post_ignores_is_published_witness :
    (create_post helloForm 5 1 []).2 = [] ++ [newPost helloForm 5 1] ∧
    (newPost helloForm 5 1).is_published = (helloForm.action == publishAction) :=
  (create_post_ignores_is_published helloForm true 5 1 []).2 (by decide)

/-- C8: under the slug-uniqueness invariant, view_post answers 404 exactly when
no post with the slug exists or the post with the slug is unpublished, and a
successful answer is a stored, published post bearing that slug. -/
theorem view_post_404_iff (s : List Char) (db : List Post)
    (huniq : ∀ p ∈ db, ∀ q ∈ db, p.slug = q.slug → p = q) :
    (view_post s db = Except.error 404 ↔
      (¬ ∃ p ∈ db, p.slug = s) ∨ (∃ p ∈ db, p.slug = s ∧ p.is_published = false)) ∧
    (∀ p : Post, view_post s db = Except.ok p →
      p ∈ db ∧ p.slug = s ∧ p.is_published = true) := by
  constructor
  · constructor
    · intro h404
      have hnone : db.find? (fun p => p.slug == s && p.is_published) = none := by
        by_contra hc
        obtain ⟨p, hp⟩ := Option.ne_none_iff_exists'.mp hc
        simp [view_post, hp] at h404
      have hall := List.find?_eq_none.mp hnone
      by_cases hex : ∃ p ∈ db, p.slug = s
      · right
        obtain ⟨p, hp, hs⟩ := hex
        refine ⟨p, hp, hs, ?_⟩
        have hnp := hall p hp
        simp only [Bool.and_eq_true, beq_iff_eq, not_and] at hnp
        simpa using hnp hs
      · left
        exact hex
    · intro h
      rcases h with hno | ⟨p0, hp0, hs0, hunpub⟩
      · have hnone : db.find? (fun p => p.slug == s && p.is_published) = none := by
          rw [List.find?_eq_none]
          intro p hp
          simp only [Bool.and_eq_true, beq_iff_eq, not_and]
          intro hs
          exact absurd ⟨p, hp, hs⟩ hno
        simp [view_post, hnone]
      · have hnone : db.find? (fun p => p.slug == s && p.is_published) = none := by
          rw [List.find?_eq_none]
          intro p hp
          simp only [Bool.and_eq_true, beq_iff_eq, not_and]
          intro hs
          have hpp : p = p0 := huniq p hp p0 hp0 (hs.trans hs0.symm)
          subst hpp
          simp [hunpub]
        simp [view_post, hnone]
  · intro p hok
    match hfind : db.find? (fun q => q.slug == s && q.is_published) with
    | none => simp [view_post, hfind] at hok
    | some q =>
      have hqp : q = p := by simpa [view_post, hfind] using hok
      subst hqp
      have hmem := List.mem_of_find?_eq_some hfind
      have hprop := List.find?_some hfind
      simp only [Bool.and_eq_true, beq_iff_eq] at hprop
      exact ⟨hmem, hprop.1, hprop.2⟩

/-- C8 witness: looking up a slug no stored post bears answers 404. -/
theorem view_post_404_iff_witness :
    view_post ("nope".toList) [pubPostW] = Except.error 404 := by
  have h := view_post_404_iff ("nope".toList) [pubPostW] (by decide)
  exact h.1.mpr (Or.inl (by decide))

/-- C10: under the id-uniqueness invariant, preview_draft answers 404 exactly
when no post with the id exists or the post with the id is published, and a
successful answer is a stored, unpublished post bearing that id. -/
theorem preview_draft_404_iff (pid : Nat) (db : List Post)
    (huniq : ∀ p ∈ db, ∀ q ∈ db, p.id = q.id → p = q) :
    (preview_draft pid db = Except.error 404 ↔
      (¬ ∃ p ∈ db, p.id = pid) ∨ (∃ p ∈ db, p.id = pid ∧ p.is_published = true)) ∧
    (∀ p : Post, preview_draft pid db = Except.ok p →
      p ∈ db ∧ p.id = pid ∧ p.is_published = false) := by
  constructor
  · constructor
    · intro h404
      have hnone : db.find? (fun p => p.id == pid && !p.is_published) = none := by
        by_contra hc
        obtain ⟨p, hp⟩ := Option.ne_none_iff_exists'.mp hc
        simp [preview_draft, hp] at h404
      have hall := List.find?_eq_none.mp hnone
      by_cases hex : ∃ p ∈ db, p.id = pid
      · right
        obtain ⟨p, hp, hs⟩ := hex
        refine ⟨p, hp, hs, ?_⟩
        have hnp := hall p hp
        simp only [Bool.and_eq_true, beq_iff_eq, not_and] at hnp
        simpa using hnp hs
      · left
        exact hex
    · intro h
      rcases h with hno | ⟨p0, hp0, hs0, hpub⟩
      · have hnone : db.find? (fun p => p.id == pid && !p.is_published) = none := by
          rw [List.find?_eq_none]
          intro p hp
          simp only [Bool.and_eq_true, beq_iff_eq, not_and]
          intro hs
          exact absurd ⟨p, hp, hs⟩ hno
        simp [preview_draft, hnone]
      · have hnone : db.find? (fun p => p.id == pid && !p.is_published) = none := by
          rw [List.find?_eq_none]
          intro p hp
          simp only [Bool.and_eq_true, beq_iff_eq, not_and]
          intro hs
          have hpp : p = p0 := huniq p hp p0 hp0 (hs.trans hs0.symm)
          subst hpp
          simp [hpub]
        simp [preview_draft, hnone]
  · intro p hok
    match hfind : db.find? (fun q => q.id == pid && !q.is_published) with
    | none => simp [preview_draft, hfind] at hok
    | some q =>
      have hqp : q = p := by simpa [preview_draft, hfind] using hok
      subst hqp
      have hmem := List.mem_of_find?_eq_some hfind
      have hprop := List.find?_some hfind
      simp only [Bool.and_eq_true, beq_iff_eq, Bool.not_eq_true'] at hprop
      exact ⟨hmem, hprop.1, hprop.2⟩

/-- C10 witness: previewing an existing but already published post answers 404. -/
theorem preview_draft_404_iff_witness :
    preview_draft 2 [pubPostW] = Except.error 404 := by
  have h := preview_draft_404_iff 2 [pubPostW] (by decide)
  exact h.1.mpr (Or.inr ⟨pubPostW, by decide, by decide, by decide⟩)

theorem editUpdate_id (g : EditForm) (now : Nat) (p : Post) :
    (editUpdate g now p).id = p.id := by
  simp only [editUpdate]
  split
  · rfl
  · rfl

theorem editUpdate_slug_of_published (g : EditForm) (now : Nat) (p : Post)
    (hp : p.is_published = true) :
    (editUpdate g now p).slug =
      (if strTruthy g.slug then g.slug.getD [] else slugify g.title) := by
  simp [editUpdate, hp]

/-- C2 counterexample: editing a published post with the explicit slug override
My Slug! stores that override verbatim; the stored slug is not in normalized
form (slugify maps it elsewhere), refuting the claim that every stored slug is
the normalized form of its source text. -/
theorem edit_post_stores_unnormalized_slug :
    (edit_post 2 editOverrideForm 9 [pubPostW]).2 = [editUpdate editOverrideForm 9 pubPostW] ∧
    (editUpdate editOverrideForm 9 pubPostW).slug = "My Slug!".toList ∧
    slugify (editUpdate editOverrideForm 9 pubPostW).slug ≠
      (editUpdate editOverrideForm 9 pubPostW).slug := by
  decide

/-- C2 amended: a slug stored by create is the normalized form of its source
text, title or truthy override; on edit of a published post the slug derived
from the title is normalized, but an explicit truthy override is stored
verbatim, without normalization. -/
theorem stored_slug_normalization (f : CreateForm) (g : EditForm) (now now2 nid pid : Nat)
    (db db2 : List Post) (p : Post) :
    ((∀ r ∈ db, r.slug ≠ finalSlug f) →
      (create_post f now nid db).2 = db ++ [newPost f now nid] ∧
      (newPost f now nid).slug =
        (if strTruthy f.slug then slugify (f.slug.getD []) else slugify f.title)) ∧
    (db2.find? (fun r => r.id == pid) = some p → p.is_published = true →
      ∃ q : Post, (edit_post pid g now2 db2).2.find? (fun r => r.id == pid) = some q ∧
        q.slug = (if strTruthy g.slug then g.slug.getD [] else slugify g.title)) := by
  constructor
  · intro h
    have hnone : db.find? (fun r => r.slug == finalSlug f) = none := by
      rw [List.find?_eq_none]
      intro r hr
      simp [h r hr]
    refine ⟨?_, rfl⟩
    by_cases hb : (f.action == publishAction) = true
    · simp [create_post, hnone, hb, newPost]
    · simp [create_post, hnone, hb, newPost]
  · intro hfind hp
    have hupd : (edit_post pid g now2 db2).2 =
        updateFirst (fun r => r.id == pid) (editUpdate g now2) db2 := by
      by_cases hb : (editUpdate g now2 p).is_published = true
      · simp [edit_post, hfind, hb]
      · simp [edit_post, hfind, hb]
    have hq0 := List.find?_some hfind
    have hq : (fun r => r.id == pid) (editUpdate g now2 p) = true := by
      simpa [editUpdate_id] using hq0
    refine ⟨editUpdate g now2 p, ?_, editUpdate_slug_of_published g now2 p hp⟩
    rw [hupd]
    exact find?_updateFirst _ _ _ _ hfind hq

/-- C2 amended witness: editing a published post without an override stores the
slug derived from the new title. -/
theorem stored_slug_normalization_witness :
    ∃ q : Post, (edit_post 2 editDeriveForm 9 [pubPostW]).2.find? (fun r => r.id == 2) =
      some q ∧
      q.slug = (if strTruthy editDeriveForm.slug then editDeriveForm.slug.getD []
        else slugify editDeriveForm.title) :=
  (stored_slug_normalization helloForm editDeriveForm 0 9 0 2 [] [pubPostW] pubPostW).2
    (by decide) (by decide)

/-! Pagination. -/

theorem ceil_div_four (n : Nat) : ⌈(n : ℚ) / 4⌉₊ = (n + 3) / 4 := by
  have h1 : (n : ℚ) / 4 ≤ (⌈(n : ℚ) / 4⌉₊ : ℚ) := Nat.le_ceil _
  have h2 : (n : ℚ) ≤ (⌈(n : ℚ) / 4⌉₊ : ℚ) * 4 := by
    rwa [div_le_iff₀ (by norm_num)] at h1
  have h3 : n ≤ ⌈(n : ℚ) / 4⌉₊ * 4 := by exact_mod_cast h2
  have h4 : (n : ℚ) ≤ (((n + 3) / 4 : Nat) : ℚ) * 4 := by
    exact_mod_cast (show n ≤ ((n + 3) / 4) * 4 by omega)
  have h5 : ⌈(n : ℚ) / 4⌉₊ ≤ (n + 3) / 4 := by
    rw [Nat.ceil_le, div_le_iff₀ (by norm_num)]
    exact h4
  omega

/-- C4: for every page number at least one, home computes total_pages as the
ceiling of the matching count over four, at least one, and the returned rows
are exactly the slice of the ordered result list at the indices from
(N-1) times four, inclusive, to N times four, exclusive. -/
theorem home_pagination (page : Nat) (search : Option (List Char)) (db : List Post)
    (hpage : 1 ≤ page) :
    (home page search db).total_pages =
      max ⌈((homeQuery search db).length : ℚ) / 4⌉₊ 1 ∧
    (∀ j : Nat, (home page search db).posts[j]? =
      if (page - 1) * 4 + j < page * 4
      then (sortPosts publishedBefore (homeQuery search db))[(page - 1) * 4 + j]?
      else none) := by
  constructor
  · show max (ceilDiv (homeQuery search db).length POSTS_PER_PAGE) 1 = _
    rw [ceil_div_four]
    rfl
  · intro j
    have h4 : ((page - 1) * 4 + j < page * 4) ↔ (j < 4) := by omega
    show (((sortPosts publishedBefore (homeQuery search db)).drop
        ((page - 1) * 4)).take 4)[j]? = _
    rw [List.getElem?_take]
    by_cases hj : j < 4
    · rw [if_pos hj, List.getElem?_drop, if_pos (h4.mpr hj)]
    · rw [if_neg hj, if_neg (fun hcon => hj (h4.mp hcon))]

/-- C4 witness: page one of a one-post table holds that post in slot zero. -/
theorem home_pagination_witness :
    (home 1 none [pubPostW]).posts[0]? = some pubPostW := by
  have h := (home_pagination 1 none [pubPostW] (by decide)).2 0
  rw [h]
  decide

end BlogSite
